import Mathlib

/-!
Verification of the persistent, branchable graph execution engine specified
for this repository (state graph + checkpointer + time-travel), against the
two-node demonstration graph of the lesson-5 notebook
(`AI_Agents_LangGraph_P5_extra.ipynb`).

The notebook defines the state schema (`AgentState` with `lnode`, `scratch`,
and `count` annotated with `operator.add`), the node callbacks `node1` and
`node2`, the decision function `should_continue`, and the wiring of the
two-node loop graph; those definitions are embedded here directly from the
notebook source.  The engine itself (the runtime driving `invoke`,
`get_state`, `get_state_history`, `update_state` over a checkpointer) is a
third-party library whose code is not part of this repository, so it is
modelled from the spec, and every recorded notebook output (final values,
snapshot listings, `next` tuples, history after forks) is reproduced by the
model and proved below as a theorem.
-/

/-- State schema of the notebook graph: `lnode` and `scratch` are plain
overwrite fields that may be absent until first written; `count` is an
integer field annotated with `operator.add`, identity-initialised to 0 by
the channel machinery (the seed snapshot already carries `count = 0`). -/
structure AgentState where
  lnode : Option String
  scratch : Option String
  count : Int
deriving Repr, DecidableEq

/-- A partial state update (the mapping a node returns, an `invoke` input, or
an `update_state` patch): each field is optional; absent fields are left
untouched by the merge. -/
structure Update where
  lnode : Option String := none
  scratch : Option String := none
  count : Option Int := none
deriving Repr, DecidableEq

/-- Reducer registry of the notebook schema: `lnode` and `scratch` follow the
default OVERWRITE policy, `count` follows ACCUMULATE with integer addition
(`operator.add`); an absent `count` in the update contributes the additive
identity 0. -/
def mergeState (s : AgentState) (u : Update) : AgentState where
  lnode := match u.lnode with
    | some v => some v
    | none => s.lnode
  scratch := match u.scratch with
    | some v => some v
    | none => s.scratch
  count := s.count + u.count.getD 0

/-- Node callback `node1` from the notebook: returns the partial update
`{lnode: "node_1", count: 1}`. -/
def node1 (_s : AgentState) : Update :=
  { lnode := some "node_1", count := some 1 }

/-- Node callback `node2` from the notebook: returns the partial update
`{lnode: "node_2", count: 1}`. -/
def node2 (_s : AgentState) : Update :=
  { lnode := some "node_2", count := some 1 }

/-- Decision function from the notebook: continue looping while `count < 3`. -/
def should_continue (s : AgentState) : Bool :=
  decide (s.count < 3)

/-- Modelled from the spec: a compiled graph.  `nodeFn` maps a node name to
its callback, `edges` resolves the successors of a node against the merged
state (a fixed edge ignores the state; a conditional edge evaluates its
decision function; the empty list denotes END), and `entryPoint` is the
node set by `set_entry_point`. -/
structure Graph where
  nodes : List String
  nodeFn : String → AgentState → Update
  edges : String → AgentState → List String
  entryPoint : String

/-- Modelled from the spec: the writes metadata of a snapshot — `noWrites`
for the bookkeeping step that applies the input, `input u` for the seed
snapshot (the caller-supplied initial update), `node n u` for a snapshot
produced by running node `n` (or by `update_state` attributing patch `u`
to `n`). -/
inductive Writes where
  | noWrites : Writes
  | input : Update → Writes
  | node : String → Update → Writes
deriving Repr, DecidableEq

/-- Extract the input update stored in seed writes. -/
def inputOf : Writes → Update
  | Writes.input u => u
  | _ => {}

/-- Extract the name of the node a snapshot's writes are attributed to. -/
def lastNodeOf : Writes → Option String
  | Writes.node n _ => some n
  | _ => none

/-- Modelled from the spec: an immutable checkpoint.  `id` is the snapshot
identity (the `thread_ts` of the notebook), `step` is `-1` for the seed and
increases by one per execution step, `values` is the channel state, `next`
the pending nodes (empty when terminal), `writes` the partial update that
produced this snapshot, and `parentId` the back-reference forming the
snapshot forest (`none` only for the seed). -/
structure Snapshot where
  id : Nat
  step : Int
  values : AgentState
  next : List String
  writes : Writes
  parentId : Option Nat
deriving Repr, DecidableEq

/-- Modelled from the spec: one thread's slice of the checkpointer — an
append-only log of snapshots, oldest first.  Distinct threads own disjoint
logs and never interact, so the engine is modelled per thread.  Snapshot
ids are assigned as positions in the log, hence unique within the thread. -/
structure Store where
  snaps : List Snapshot
deriving Repr, DecidableEq

/-- Modelled from the spec: run-time engine failures.  `stepLimitExceeded`
is the safety stop of the per-invoke step cap; `noSnapshot` and
`noLastNode` guard resumption and `update_state` preconditions. -/
inductive EngErr where
  | stepLimitExceeded : EngErr
  | noSnapshot : EngErr
  | noLastNode : EngErr
deriving Repr, DecidableEq

/-- Modelled from the spec: append one snapshot to the thread log, assigning
the next free id; returns the extended store and the new snapshot. -/
def appendSnap (st : Store) (stp : Int) (v : AgentState) (nx : List String)
    (w : Writes) (par : Option Nat) : Store × Snapshot :=
  let s : Snapshot :=
    { id := st.snaps.length, step := stp, values := v, next := nx,
      writes := w, parentId := par }
  ({ snaps := st.snaps ++ [s] }, s)

/-- Modelled from the spec: execute the single pending node `n` of snapshot
`cur` and persist the resulting child snapshot.  The bookkeeping node
`__start__` merges the caller-supplied input (recorded in the seed's
writes) and hands over to the entry point; an ordinary node runs its
callback, merges the partial update through the reducers, and resolves its
outgoing edges against the merged values. -/
def stepFrom (g : Graph) (st : Store) (cur : Snapshot) (n : String) :
    Store × Snapshot :=
  if n = "__start__" then
    appendSnap st (cur.step + 1) (mergeState cur.values (inputOf cur.writes))
      [g.entryPoint] Writes.noWrites (some cur.id)
  else
    let u := g.nodeFn n cur.values
    let merged := mergeState cur.values u
    appendSnap st (cur.step + 1) merged (g.edges n merged)
      (Writes.node n u) (some cur.id)

/-- Modelled from the spec: the RUNNING loop of the engine.  `fuel` is the
configurable per-invoke step cap: each executed node consumes one unit,
and exhausting it while work remains fails with `stepLimitExceeded`,
leaving every snapshot written so far intact (thread resumable).  When
`next` is empty the invocation completes and returns the values. -/
def runLoop (g : Graph) : Nat → Store → Snapshot → Store × Except EngErr AgentState
  | 0, st, cur =>
    if cur.next.isEmpty then (st, Except.ok cur.values)
    else (st, Except.error EngErr.stepLimitExceeded)
  | Nat.succ fuel, st, cur =>
    match cur.next with
    | [] => (st, Except.ok cur.values)
    | n :: _ =>
      let p := stepFrom g st cur n
      runLoop g fuel p.1 p.2

/-- Modelled from the spec: cold start — write the seed snapshot (step `-1`,
identity-initialised values, `next = ["__start__"]`, the input recorded as
writes) and enter the running loop. -/
def coldInvoke (g : Graph) (inp : Update) (fuel : Nat) (st : Store) :
    Store × Except EngErr AgentState :=
  let p := appendSnap st (-1) { lnode := none, scratch := none, count := 0 }
    ["__start__"] (Writes.input inp) none
  runLoop g fuel p.1 p.2

/-- Modelled from the spec: `invoke(None, threadId)` — resume from the
latest snapshot of the thread; a thread with empty `next` returns its
values unchanged without writing anything. -/
def resumeLatest (g : Graph) (fuel : Nat) (st : Store) :
    Store × Except EngErr AgentState :=
  match st.snaps.getLast? with
  | none => (st, Except.error EngErr.noSnapshot)
  | some cur => runLoop g fuel st cur

/-- Modelled from the spec: `invoke(None, snapshotRef)` — time-travel resume
from the historical snapshot with identity `sid`; new snapshots are
appended as a fresh branch, the historical ones are never touched. -/
def resumeFrom (g : Graph) (sid : Nat) (fuel : Nat) (st : Store) :
    Store × Except EngErr AgentState :=
  match st.snaps.find? (fun s => s.id == sid) with
  | none => (st, Except.error EngErr.noSnapshot)
  | some cur => runLoop g fuel st cur

/-- Modelled from the spec: the node a manual edit is attributed to — the
caller-chosen `asNode` when given, otherwise the node recorded as having
produced the writes of the latest snapshot. -/
def attrOf (asNode : Option String) (w : Writes) : Option String :=
  match asNode with
  | some n => some n
  | none => lastNodeOf w

/-- Modelled from the spec: `update_state(threadId, patch, as_node)` — load
the latest snapshot, merge the patch through the reducers, and write one
child snapshot whose writes are the patch attributed to `asNode` when
given, otherwise to the node recorded as having produced the latest
snapshot; `next` is resolved by evaluating that node's outgoing edges
against the merged values, exactly as though it had just run. -/
def updateState (g : Graph) (st : Store) (patch : Update)
    (asNode : Option String) : Store × Except EngErr Snapshot :=
  match st.snaps.getLast? with
  | none => (st, Except.error EngErr.noSnapshot)
  | some snap =>
    match attrOf asNode snap.writes with
    | none => (st, Except.error EngErr.noLastNode)
    | some n =>
      let merged := mergeState snap.values patch
      let p := appendSnap st (snap.step + 1) merged (g.edges n merged)
        (Writes.node n patch) (some snap.id)
      (p.1, Except.ok p.2)

/-- History query `get_state_history`: all snapshots of the thread, newest
first. -/
def getHistory (st : Store) : List Snapshot :=
  st.snaps.reverse

/-- Names of the nodes executed, in order, as recorded by the snapshots'
writes attribution. -/
def executedNodes (st : Store) : List String :=
  st.snaps.filterMap (fun s => lastNodeOf s.writes)

/-- The two-node loop graph wired in the notebook: `Node1 → Node2` is a fixed
edge, `Node2` has a conditional edge mapping `should_continue` to
`{True: Node1, False: END}`, and the entry point is `Node1`. -/
def demoGraph : Graph where
  nodes := ["Node1", "Node2"]
  nodeFn := fun n s =>
    if n = "Node1" then node1 s
    else if n = "Node2" then node2 s
    else {}
  edges := fun n s =>
    if n = "Node1" then ["Node2"]
    else if n = "Node2" then (if should_continue s then ["Node1"] else [])
    else []
  entryPoint := "Node1"

/-- The initial input of the notebook runs: `{"count": 0, "scratch": "hi"}`. -/
def demoInput : Update :=
  { scratch := some "hi", count := some 0 }

/-- The first notebook run: `graph.invoke({"count": 0, "scratch": "hi"},
thread)` on a fresh thread, with an ample step cap. -/
def run1 : Store × Except EngErr AgentState :=
  coldInvoke demoGraph demoInput 25 { snaps := [] }

/-- The thread log after the first run. -/
def store1 : Store := run1.1

/-- The time-travel run of the notebook: resume with `invoke(None, cfg)` from
the historical snapshot right after the first `Node1` execution (identity 2,
step 1, values `count = 1`, pending `next = ["Node2"]`). -/
def run2 : Store × Except EngErr AgentState :=
  resumeFrom demoGraph 2 25 store1

/-- The thread log after the time-travel run: the original six snapshots
followed by the three snapshots of the new branch. -/
def store2 : Store := run2.1

/-- The manual patch of the notebook: the values of the saved mid-run
snapshot, hand-edited to `count = -3` and `scratch = "hello"`. -/
def demoPatch : Update :=
  { lnode := some "node_1", scratch := some "hello", count := some (-3) }

/-- The latest snapshot of the thread after the first run (step 4, terminal,
values `count = 4`), as recorded by the notebook. -/
def lastSnap1 : Snapshot :=
  { id := 5, step := 4,
    values := { lnode := some "node_2", scratch := some "hi", count := 4 },
    next := [],
    writes := Writes.node "Node2"
      { lnode := some "node_2", scratch := none, count := some 1 },
    parentId := some 4 }

/-- The execution-relevant payload of a snapshot (everything but its identity
and parent link), used to compare a replayed branch with the original one. -/
def stepData (s : Snapshot) : Int × AgentState × List String × Writes :=
  (s.step, s.values, s.next, s.writes)

/-- The original step-2 snapshot (child of snapshot 2 in the first run). -/
def forkChildA : Snapshot :=
  { id := 3, step := 2,
    values := { lnode := some "node_2", scratch := some "hi", count := 2 },
    next := ["Node1"],
    writes := Writes.node "Node2"
      { lnode := some "node_2", scratch := none, count := some 1 },
    parentId := some 2 }

/-- The step-2 snapshot of the forked branch: a distinct sibling of
`forkChildA` under the same parent, carrying the same step number. -/
def forkChildB : Snapshot :=
  { id := 6, step := 2,
    values := { lnode := some "node_2", scratch := some "hi", count := 2 },
    next := ["Node1"],
    writes := Writes.node "Node2"
      { lnode := some "node_2", scratch := none, count := some 1 },
    parentId := some 2 }

/-- The terminal snapshot of the forked branch. -/
def forkTerminal : Snapshot :=
  { id := 8, step := 4,
    values := { lnode := some "node_2", scratch := some "hi", count := 4 },
    next := [],
    writes := Writes.node "Node2"
      { lnode := some "node_2", scratch := none, count := some 1 },
    parentId := some 7 }

/-- The chain of ancestor identities of a snapshot, following parent links
through the thread log (fuel-bounded walk). -/
def ancestorIds (st : Store) : Nat → Snapshot → List Nat
  | 0, _ => []
  | Nat.succ fuel, s =>
    match s.parentId with
    | none => []
    | some pid =>
      match st.snaps.find? (fun p => p.id == pid) with
      | none => [pid]
      | some p => pid :: ancestorIds st fuel p

/-- An unboundedly looping graph: a single node whose conditional edge always
routes back to itself, used to exercise the per-invoke step cap. -/
def loopGraph : Graph where
  nodes := ["Node1"]
  nodeFn := fun _ _s => { count := some 1 }
  edges := fun _ _ => ["Node1"]
  entryPoint := "Node1"

/-- Invoking the looping graph with a step cap of 5. -/
def capRun : Store × Except EngErr AgentState :=
  coldInvoke loopGraph { count := some 0 } 5 { snaps := [] }

/-- A partial update writing `+1` to the ACCUMULATE field, as both notebook
nodes do. -/
def plusOne : Update := { count := some 1 }

/-- The contribution of an update to the ACCUMULATE field `count` (its
identity 0 when the update does not touch the field). -/
def countDelta (u : Update) : Int := u.count.getD 0

/-- Well-formedness of a thread log: snapshot ids are their positions in the
append-only log (hence unique), parentless snapshots are seeds at step `-1`,
and every parent link points at an existing snapshot of strictly smaller
step. -/
def Wf (st : Store) : Prop :=
  (∀ (i : Nat) (s : Snapshot), st.snaps[i]? = some s → s.id = i) ∧
  (∀ s ∈ st.snaps, s.parentId = none → s.step = -1) ∧
  (∀ s ∈ st.snaps, ∀ pid, s.parentId = some pid →
    ∃ p, st.snaps[pid]? = some p ∧ p.step < s.step)

/-- The thread logs reachable by any sequence of engine operations from a
fresh thread: cold start, resumption from the latest or from any historical
snapshot, and manual state edits with or without a node attribution. -/
inductive Reachable (g : Graph) : Store → Prop where
  | empty : Reachable g { snaps := [] }
  | cold (st : Store) (inp : Update) (fuel : Nat) :
      Reachable g st → Reachable g (coldInvoke g inp fuel st).1
  | resumeL (st : Store) (fuel : Nat) :
      Reachable g st → Reachable g (resumeLatest g fuel st).1
  | resumeF (st : Store) (sid fuel : Nat) :
      Reachable g st → Reachable g (resumeFrom g sid fuel st).1
  | update (st : Store) (patch : Update) (asN : Option String) :
      Reachable g st → Reachable g (updateState g st patch asN).1

theorem appendSnap_snaps (st : Store) (stp : Int) (v : AgentState)
    (nx : List String) (w : Writes) (par : Option Nat) :
    (appendSnap st stp v nx w par).1.snaps =
      st.snaps ++ [(appendSnap st stp v nx w par).2] := rfl

theorem stepFrom_snaps (g : Graph) (st : Store) (cur : Snapshot) (n : String) :
    (stepFrom g st cur n).1.snaps = st.snaps ++ [(stepFrom g st cur n).2] := by
  unfold stepFrom
  by_cases h : n = "__start__" <;> simp [h, appendSnap]

theorem stepFrom_snd_parent (g : Graph) (st : Store) (cur : Snapshot)
    (n : String) : (stepFrom g st cur n).2.parentId = some cur.id ∧
      (stepFrom g st cur n).2.step = cur.step + 1 ∧
      (stepFrom g st cur n).2.id = st.snaps.length := by
  unfold stepFrom
  by_cases h : n = "__start__" <;> simp [h, appendSnap]

theorem runLoop_snaps_ext (g : Graph) :
    ∀ (fuel : Nat) (st : Store) (cur : Snapshot),
      ∃ tl, (runLoop g fuel st cur).1.snaps = st.snaps ++ tl := by
  intro fuel
  induction fuel with
  | zero =>
    intro st cur
    unfold runLoop
    by_cases h : cur.next.isEmpty <;> simp [h]
  | succ fuel ih =>
    intro st cur
    unfold runLoop
    match hn : cur.next with
    | [] => exact ⟨[], by simp⟩
    | n :: rest =>
      obtain ⟨tl, htl⟩ := ih (stepFrom g st cur n).1 (stepFrom g st cur n).2
      refine ⟨(stepFrom g st cur n).2 :: tl, ?_⟩
      rw [htl, stepFrom_snaps]
      simp

theorem coldInvoke_snaps_ext (g : Graph) (inp : Update) (fuel : Nat)
    (st : Store) : ∃ tl, (coldInvoke g inp fuel st).1.snaps = st.snaps ++ tl := by
  unfold coldInvoke
  obtain ⟨tl, htl⟩ := runLoop_snaps_ext g fuel
    (appendSnap st (-1) { lnode := none, scratch := none, count := 0 }
      ["__start__"] (Writes.input inp) none).1
    (appendSnap st (-1) { lnode := none, scratch := none, count := 0 }
      ["__start__"] (Writes.input inp) none).2
  refine ⟨(appendSnap st (-1) { lnode := none, scratch := none, count := 0 }
      ["__start__"] (Writes.input inp) none).2 :: tl, ?_⟩
  rw [htl]
  simp [appendSnap]

theorem resumeLatest_snaps_ext (g : Graph) (fuel : Nat) (st : Store) :
    ∃ tl, (resumeLatest g fuel st).1.snaps = st.snaps ++ tl := by
  unfold resumeLatest
  cases h : st.snaps.getLast? with
  | none => exact ⟨[], by simp⟩
  | some cur => exact runLoop_snaps_ext g fuel st cur

theorem resumeFrom_snaps_ext (g : Graph) (sid fuel : Nat) (st : Store) :
    ∃ tl, (resumeFrom g sid fuel st).1.snaps = st.snaps ++ tl := by
  unfold resumeFrom
  cases h : st.snaps.find? (fun s => s.id == sid) with
  | none => exact ⟨[], by simp⟩
  | some cur => exact runLoop_snaps_ext g fuel st cur

theorem updateState_snaps_ext (g : Graph) (st : Store) (patch : Update)
    (asN : Option String) :
    ∃ tl, (updateState g st patch asN).1.snaps = st.snaps ++ tl := by
  unfold updateState
  cases h : st.snaps.getLast? with
  | none => exact ⟨[], by simp⟩
  | some snap =>
    cases hn : attrOf asN snap.writes with
    | none => exact ⟨[], by simp [hn]⟩
    | some n =>
      exact ⟨[(appendSnap st (snap.step + 1) (mergeState snap.values patch)
        (g.edges n (mergeState snap.values patch)) (Writes.node n patch)
        (some snap.id)).2], by simp [hn, appendSnap]⟩

theorem wf_concat (l : List Snapshot) (a : Snapshot) (hw : Wf { snaps := l })
    (hid : a.id = l.length)
    (hroot : a.parentId = none → a.step = -1)
    (hpar : ∀ pid, a.parentId = some pid →
      ∃ p, l[pid]? = some p ∧ p.step < a.step) :
    Wf { snaps := l ++ [a] } := by
  obtain ⟨hids, hrt, hst⟩ := hw
  refine ⟨?_, ?_, ?_⟩
  · intro i s hs
    rcases lt_trichotomy i l.length with hi | hi | hi
    · rw [List.getElem?_append_left hi] at hs
      exact hids i s hs
    · subst hi
      simp at hs
      rw [← hs]
      exact hid
    · have hnone : (l ++ [a])[i]? = none := by
        apply List.getElem?_eq_none
        simp
        omega
      rw [hnone] at hs
      exact Option.noConfusion hs
  · intro s hs hp
    rcases List.mem_append.mp hs with hmem | hmem
    · exact hrt s hmem hp
    · rw [List.mem_singleton.mp hmem] at hp ⊢
      exact hroot hp
  · intro s hs pid hpid
    rcases List.mem_append.mp hs with hmem | hmem
    · obtain ⟨p, hp, hlt⟩ := hst s hmem pid hpid
      have hplen : pid < l.length := (List.getElem?_eq_some.mp hp).1
      exact ⟨p, by rw [List.getElem?_append_left hplen]; exact hp, hlt⟩
    · rw [List.mem_singleton.mp hmem] at hpid ⊢
      obtain ⟨p, hp, hlt⟩ := hpar pid hpid
      have hplen : pid < l.length := (List.getElem?_eq_some.mp hp).1
      exact ⟨p, by rw [List.getElem?_append_left hplen]; exact hp, hlt⟩

theorem mem_getElem?_id (st : Store) (hw : Wf st) (cur : Snapshot)
    (hc : cur ∈ st.snaps) : st.snaps[cur.id]? = some cur := by
  obtain ⟨i, hi⟩ := List.mem_iff_getElem?.mp hc
  have hcid : cur.id = i := hw.1 i cur hi
  rw [hcid]
  exact hi

theorem wf_appendSnap_child (st : Store) (v : AgentState) (nx : List String)
    (w : Writes) (cur : Snapshot) (hw : Wf st) (hc : cur ∈ st.snaps) :
    Wf (appendSnap st (cur.step + 1) v nx w (some cur.id)).1 := by
  apply wf_concat st.snaps _ hw rfl
  · intro h
    exact Option.noConfusion h
  · intro pid hpid
    have : pid = cur.id := (Option.some.injEq _ _ ▸ hpid).symm
    rw [this]
    exact ⟨cur, mem_getElem?_id st hw cur hc,
      show cur.step < cur.step + 1 by omega⟩

theorem stepFrom_snd_mem (g : Graph) (st : Store) (cur : Snapshot)
    (n : String) : (stepFrom g st cur n).2 ∈ (stepFrom g st cur n).1.snaps := by
  rw [stepFrom_snaps]
  exact List.mem_append_right _ (List.mem_singleton.mpr rfl)

theorem wf_stepFrom (g : Graph) (st : Store) (cur : Snapshot) (n : String)
    (hw : Wf st) (hc : cur ∈ st.snaps) : Wf (stepFrom g st cur n).1 := by
  unfold stepFrom
  by_cases h : n = "__start__"
  · simp only [h, if_pos]
    exact wf_appendSnap_child st _ _ _ cur hw hc
  · simp only [h, if_neg, if_false]
    exact wf_appendSnap_child st _ _ _ cur hw hc

theorem wf_runLoop (g : Graph) : ∀ (fuel : Nat) (st : Store) (cur : Snapshot),
    Wf st → cur ∈ st.snaps → Wf (runLoop g fuel st cur).1 := by
  intro fuel
  induction fuel with
  | zero =>
    intro st cur hw _
    unfold runLoop
    split <;> exact hw
  | succ fuel ih =>
    intro st cur hw hc
    unfold runLoop
    cases hn : cur.next with
    | nil => exact hw
    | cons n rest =>
      exact ih _ _ (wf_stepFrom g st cur n hw hc) (stepFrom_snd_mem g st cur n)

theorem wf_empty : Wf { snaps := [] } :=
  ⟨by intro i s hs; simp at hs,
   by intro s hs; simp at hs,
   by intro s hs; simp at hs⟩

theorem wf_coldInvoke (g : Graph) (inp : Update) (fuel : Nat) (st : Store)
    (hw : Wf st) : Wf (coldInvoke g inp fuel st).1 := by
  unfold coldInvoke
  apply wf_runLoop
  · apply wf_concat st.snaps _ hw rfl (fun _ => rfl)
    intro pid hpid
    exact Option.noConfusion hpid
  · exact List.mem_append_right _ (List.mem_singleton.mpr rfl)

theorem wf_resumeLatest (g : Graph) (fuel : Nat) (st : Store) (hw : Wf st) :
    Wf (resumeLatest g fuel st).1 := by
  unfold resumeLatest
  cases h : st.snaps.getLast? with
  | none => exact hw
  | some cur => exact wf_runLoop g fuel st cur hw (List.mem_of_mem_getLast? h)

theorem wf_resumeFrom (g : Graph) (sid fuel : Nat) (st : Store) (hw : Wf st) :
    Wf (resumeFrom g sid fuel st).1 := by
  unfold resumeFrom
  cases h : st.snaps.find? (fun s => s.id == sid) with
  | none => exact hw
  | some cur => exact wf_runLoop g fuel st cur hw (List.mem_of_find?_eq_some h)

theorem wf_updateState (g : Graph) (st : Store) (patch : Update)
    (asN : Option String) (hw : Wf st) : Wf (updateState g st patch asN).1 := by
  unfold updateState
  cases h : st.snaps.getLast? with
  | none => exact hw
  | some snap =>
    cases hn : attrOf asN snap.writes with
    | none =>
      simp only [hn]
      exact hw
    | some n =>
      simp only [hn]
      exact wf_appendSnap_child st _ _ _ snap hw (List.mem_of_mem_getLast? h)

theorem wf_reachable (g : Graph) (st : Store) (h : Reachable g st) : Wf st := by
  induction h with
  | empty => exact wf_empty
  | cold st inp fuel _ ih => exact wf_coldInvoke g inp fuel st ih
  | resumeL st fuel _ ih => exact wf_resumeLatest g fuel st ih
  | resumeF st sid fuel _ ih => exact wf_resumeFrom g sid fuel st ih
  | update st patch asN _ ih => exact wf_updateState g st patch asN ih

theorem runLoop_result (g : Graph) : ∀ (fuel : Nat) (st : Store) (cur : Snapshot),
    (runLoop g fuel st cur).2 = Except.error EngErr.stepLimitExceeded ∨
    ∃ v, (runLoop g fuel st cur).2 = Except.ok v := by
  intro fuel
  induction fuel with
  | zero =>
    intro st cur
    unfold runLoop
    by_cases hn : cur.next.isEmpty
    · exact Or.inr ⟨cur.values, by rw [if_pos hn]⟩
    · exact Or.inl (by rw [if_neg hn])
  | succ fuel ih =>
    intro st cur
    unfold runLoop
    cases cur.next with
    | nil => exact Or.inr ⟨cur.values, rfl⟩
    | cons n rest => exact ih _ _

theorem runLoop_length_le (g : Graph) : ∀ (fuel : Nat) (st : Store) (cur : Snapshot),
    (runLoop g fuel st cur).1.snaps.length ≤ st.snaps.length + fuel := by
  intro fuel
  induction fuel with
  | zero =>
    intro st cur
    unfold runLoop
    split <;> simp
  | succ fuel ih =>
    intro st cur
    unfold runLoop
    cases cur.next with
    | nil =>
      show st.snaps.length ≤ st.snaps.length + (fuel + 1)
      omega
    | cons n rest =>
      have h1 := ih (stepFrom g st cur n).1 (stepFrom g st cur n).2
      have h2 : (stepFrom g st cur n).1.snaps.length = st.snaps.length + 1 := by
        rw [stepFrom_snaps]
        simp
      show (runLoop g fuel (stepFrom g st cur n).1
        (stepFrom g st cur n).2).1.snaps.length ≤ st.snaps.length + (fuel + 1)
      omega

/-- C1: invoking the compiled two-node loop graph with the initial state
`{count: 0, scratch: "hi"}` on a fresh thread executes Node1, Node2, Node1,
Node2 and returns the final state with `count = 4`, and the latest snapshot
of the thread has an empty `next`. -/
theorem C1_two_node_loop_run :
    run1.2 = Except.ok { lnode := some "node_2", scratch := some "hi", count := 4 } ∧
    executedNodes store1 = ["Node1", "Node2", "Node1", "Node2"] ∧
    (store1.snaps.getLast?).map Snapshot.next = some [] := by
  refine ⟨rfl, rfl, rfl⟩

/-- C2: resuming with `invoke(None, snapshotRef)` from the historical
snapshot taken right after the first Node1 execution (values `count = 1`,
`next = ["Node2"]`) replays exactly Node2, Node1, Node2 and returns the
same final state (`count = 4`) as the original run; the replayed branch
carries, step by step, the same step numbers, values, pending nodes and
writes as the suffix of the original execution from that snapshot. -/
theorem C2_resume_determinism :
    store1.snaps[2]? = some
      { id := 2, step := 1,
        values := { lnode := some "node_1", scratch := some "hi", count := 1 },
        next := ["Node2"],
        writes := Writes.node "Node1"
          { lnode := some "node_1", scratch := none, count := some 1 },
        parentId := some 1 } ∧
    run2.2 = Except.ok { lnode := some "node_2", scratch := some "hi", count := 4 } ∧
    run2.2 = run1.2 ∧
    executedNodes { snaps := store2.snaps.drop 6 } = ["Node2", "Node1", "Node2"] ∧
    (store2.snaps.drop 6).map stepData = (store1.snaps.drop 3).map stepData := by
  refine ⟨rfl, rfl, rfl, rfl, rfl⟩

/-- C9: calling `updateState` without `asNode` attributes the patch to the
node that produced the latest snapshot (Node2), merges the patch through
the field reducers (ACCUMULATE count 4 patched with -3 gives 1), and
resolves `next` by evaluating that node's outgoing edges against the merged
values (count 1 < 3 gives ["Node1"]) even though the pre-patch snapshot had
an empty `next`. -/
theorem C9_update_noAsNode_attribution :
    (store1.snaps.getLast?).map Snapshot.next = some [] ∧
    (store1.snaps.getLast?).map (fun s => s.values.count) = some 4 ∧
    ∃ s2, (updateState demoGraph store1 demoPatch none).2 = Except.ok s2 ∧
      s2.writes = Writes.node "Node2" demoPatch ∧
      s2.values = { lnode := some "node_1", scratch := some "hello", count := 1 } ∧
      s2.next = ["Node1"] := by
  refine ⟨rfl, rfl, _, rfl, rfl, rfl, rfl⟩

/-- C10: historical snapshots may lack State fields no node has yet written:
the seed snapshot (step -1) carries only the identity-initialised
ACCUMULATE entry `count` and omits the caller-supplied `scratch` even
though its writes record it; every snapshot before the first node execution
omits `lnode`, while later snapshots do carry it, so a field read from an
arbitrary historical snapshot is optional. -/
theorem C10_optional_historical_fields :
    (store1.snaps[0]?).map Snapshot.step = some (-1) ∧
    (store1.snaps[0]?).map Snapshot.values =
      some { lnode := none, scratch := none, count := 0 } ∧
    (store1.snaps[0]?).map Snapshot.writes = some (Writes.input demoInput) ∧
    demoInput.scratch = some "hi" ∧
    (∀ s ∈ store1.snaps, s.step ≤ 0 → s.values.lnode = none) ∧
    (∃ s ∈ store1.snaps, s.values.lnode ≠ none) := by
  refine ⟨rfl, rfl, rfl, rfl, by decide, by decide⟩

/-- C8: under the ACCUMULATE integer-add reducer, the final value of `count`
after any sequence of merged partial updates is the initial value plus the
sum of the updates' `count` contributions; in particular N updates each
writing +1 on an initially-0 field yield exactly N, along any branch whose
path carries those writes. -/
theorem C8_accumulate_adds :
    (∀ (s : AgentState) (us : List Update),
      (us.foldl mergeState s).count = s.count + (us.map countDelta).sum) ∧
    (∀ n : Nat,
      ((List.replicate n plusOne).foldl mergeState
        { lnode := none, scratch := none, count := 0 }).count = n) := by
  have key : ∀ (us : List Update) (s : AgentState),
      (us.foldl mergeState s).count = s.count + (us.map countDelta).sum := by
    intro us
    induction us with
    | nil => intro s; simp
    | cons u us ih =>
      intro s
      simp only [List.foldl_cons, List.map_cons, List.sum_cons]
      rw [ih (mergeState s u)]
      have hm : (mergeState s u).count = s.count + u.count.getD 0 := rfl
      rw [hm]
      simp only [countDelta]
      omega
  constructor
  · intro s us
    exact key us s
  · intro n
    rw [key]
    simp [countDelta, plusOne, List.map_replicate, List.sum_replicate,
      smul_eq_mul, mul_one]

/-- C3: in every thread log reachable by engine operations, a parentless
snapshot is the seed at step -1 and every snapshot's step strictly exceeds
the step of the snapshot its parent link names, so steps are strictly
increasing along any parent-linked branch; across forks, two distinct
children of the same parent may carry the same step number (exhibited in
the forked notebook run), so the step alone does not identify a snapshot. -/
theorem C3_branch_steps_strictly_increasing :
    (∀ (g : Graph) (st : Store), Reachable g st →
      (∀ s ∈ st.snaps, s.parentId = none → s.step = -1) ∧
      (∀ s ∈ st.snaps, ∀ pid, s.parentId = some pid →
        ∀ p ∈ st.snaps, p.id = pid → p.step < s.step)) ∧
    (∃ st, Reachable demoGraph st ∧
      forkChildA ∈ st.snaps ∧ forkChildB ∈ st.snaps ∧
      forkChildA ≠ forkChildB ∧
      forkChildA.parentId = forkChildB.parentId ∧
      forkChildA.parentId = some 2 ∧
      forkChildA.step = forkChildB.step) := by
  constructor
  · intro g st hr
    have hw := wf_reachable g st hr
    refine ⟨hw.2.1, ?_⟩
    intro s hs pid hpid p hp hpid2
    obtain ⟨q, hq, hlt⟩ := hw.2.2 s hs pid hpid
    have hpp : st.snaps[pid]? = some p := by
      rw [← hpid2]
      exact mem_getElem?_id st hw p hp
    rw [hpp] at hq
    injection hq with hpq
    rw [hpq]
    exact hlt
  · refine ⟨store2, ?_, by decide, by decide, by decide, by decide, by decide,
      by decide⟩
    show Reachable demoGraph (resumeFrom demoGraph 2 25
      (coldInvoke demoGraph demoInput 25 { snaps := [] }).1).1
    exact Reachable.resumeF _ 2 25 (Reachable.cold _ demoInput 25 Reachable.empty)

/-- C4: `updateState` with `asNode = "Node1"` on a graph whose `Node1` has a
fixed edge to `Node2` appends one child of the latest snapshot whose `next`
is exactly `["Node2"]`, that is, `next` is resolved by evaluating Node1's
outgoing edges against the merged values as though Node1 had just run. -/
theorem C4_update_asNode_next (g : Graph) (st : Store) (patch : Update)
    (snap : Snapshot) (hlast : st.snaps.getLast? = some snap)
    (hedge : ∀ s, g.edges "Node1" s = ["Node2"]) :
    ∃ s2, (updateState g st patch (some "Node1")).2 = Except.ok s2 ∧
      s2.next = ["Node2"] ∧ s2.parentId = some snap.id ∧
      (updateState g st patch (some "Node1")).1.snaps = st.snaps ++ [s2] := by
  unfold updateState
  rw [hlast]
  refine ⟨_, rfl, ?_, rfl, rfl⟩
  exact hedge (mergeState snap.values patch)

/-- Witness for C4 at the notebook scenario: updating thread 1 after its
first run, attributed to Node1, yields a snapshot with `next = ["Node2"]`. -/
theorem C4_update_asNode_next_witness :
    ∃ s2, (updateState demoGraph store1 demoPatch (some "Node1")).2 =
        Except.ok s2 ∧
      s2.next = ["Node2"] ∧ s2.parentId = some 5 ∧
      (updateState demoGraph store1 demoPatch (some "Node1")).1.snaps =
        store1.snaps ++ [s2] := by
  obtain ⟨s2, h1, h2, h3, h4⟩ := C4_update_asNode_next demoGraph store1
    demoPatch lastSnap1 (by decide) (fun s => rfl)
  exact ⟨s2, h1, h2, h3, h4⟩

/-- C5 counterexample: at the notebook scenario the latest snapshot before
the patch has `next = ()`, yet `updateState` without `asNode` produces a
snapshot whose `next` is `["Node1"]` — `next` is not left unchanged and
does not stay empty. -/
theorem C5_next_changes_counterexample :
    (store1.snaps.getLast?).map Snapshot.next = some [] ∧
    ∃ s2, (updateState demoGraph store1 demoPatch none).2 = Except.ok s2 ∧
      s2.next = ["Node1"] ∧ s2.next ≠ [] := by
  refine ⟨rfl, _, rfl, rfl, by decide⟩

/-- C5 amended: `updateState` without `asNode` does not leave `next`
unchanged; it attributes the patch to the node recorded in the latest
snapshot's writes and recomputes `next` by evaluating that node's outgoing
edges against the merged values, so `next` may differ from the pre-patch
snapshot's `next`. -/
theorem C5_update_noAsNode_recomputes_next (g : Graph) (st : Store)
    (patch : Update) (snap : Snapshot) (n : String) (u : Update)
    (hlast : st.snaps.getLast? = some snap)
    (hwr : snap.writes = Writes.node n u) :
    ∃ s2, (updateState g st patch none).2 = Except.ok s2 ∧
      s2.writes = Writes.node n patch ∧
      s2.next = g.edges n (mergeState snap.values patch) ∧
      s2.parentId = some snap.id := by
  unfold updateState
  simp only [hlast, hwr, attrOf, lastNodeOf]
  exact ⟨_, rfl, rfl, rfl, rfl⟩

/-- Witness for the amended C5 at the notebook scenario. -/
theorem C5_update_noAsNode_recomputes_next_witness :
    ∃ s2, (updateState demoGraph store1 demoPatch none).2 = Except.ok s2 ∧
      s2.writes = Writes.node "Node2" demoPatch ∧
      s2.next = demoGraph.edges "Node2" (mergeState lastSnap1.values demoPatch) ∧
      s2.parentId = some 5 := by
  obtain ⟨s2, h1, h2, h3, h4⟩ := C5_update_noAsNode_recomputes_next demoGraph
    store1 demoPatch lastSnap1 "Node2"
    { lnode := some "node_2", scratch := none, count := some 1 }
    (by decide) (by decide)
  exact ⟨s2, h1, h2, h3, h4⟩

/-- C6: resuming or editing from a snapshot only appends to the thread log —
every previously written snapshot keeps its values, writes, next and parent
link untouched; after the notebook fork the history contains the terminal
snapshots of both the original continuation and the new branch, and both
reach the forked snapshot (identity 2) through their parent references. -/
theorem C6_fork_immutability :
    (∀ (g : Graph) (sid fuel : Nat) (st : Store),
      ∃ tl, (resumeFrom g sid fuel st).1.snaps = st.snaps ++ tl) ∧
    (∀ (g : Graph) (st : Store) (patch : Update) (asN : Option String),
      ∃ tl, (updateState g st patch asN).1.snaps = st.snaps ++ tl) ∧
    store2.snaps.take 6 = store1.snaps ∧
    lastSnap1 ∈ getHistory store2 ∧
    forkTerminal ∈ getHistory store2 ∧
    (2 : Nat) ∈ ancestorIds store2 10 lastSnap1 ∧
    (2 : Nat) ∈ ancestorIds store2 10 forkTerminal := by
  exact ⟨resumeFrom_snaps_ext, updateState_snaps_ext, by decide, by decide,
    by decide, by decide, by decide⟩

/-- C7: the engine bounds the number of steps of a single invocation by the
configurable cap `fuel`: the log grows by at most `fuel` snapshots per call
and the only run-time failure of the loop is `stepLimitExceeded`; the
always-looping graph with cap 5 fails exactly that way, keeps its log (the
latest snapshot still names the pending node), and a later resume continues
from where the capped call stopped. -/
theorem C7_step_cap :
    (∀ (g : Graph) (fuel : Nat) (st : Store) (cur : Snapshot),
      (runLoop g fuel st cur).2 = Except.error EngErr.stepLimitExceeded ∨
      ∃ v, (runLoop g fuel st cur).2 = Except.ok v) ∧
    (∀ (g : Graph) (fuel : Nat) (st : Store) (cur : Snapshot),
      (runLoop g fuel st cur).1.snaps.length ≤ st.snaps.length + fuel) ∧
    capRun.2 = Except.error EngErr.stepLimitExceeded ∧
    (capRun.1.snaps.getLast?).map Snapshot.next = some ["Node1"] ∧
    (resumeLatest loopGraph 3 capRun.1).2 =
      Except.error EngErr.stepLimitExceeded ∧
    ((resumeLatest loopGraph 3 capRun.1).1.snaps.getLast?).map
      (fun s => s.values.count) = some 7 := by
  exact ⟨runLoop_result, runLoop_length_le, rfl, rfl, rfl, rfl⟩
